import Mathlib

/-!
Verification of the resumable chunked migration engine
(`core/lib/zksync_core/src/state_keeper/io/event_indexes_migration.rs`) and of the
basic domain identifier types (`core/lib/basic_types/src/lib.rs`).

Machine integers are embedded as `Nat`.  The `basic_type!` macro that equips
`MiniblockNumber` with arithmetic lives outside the sources at hand; per the
specification its arithmetic must not silently wrap (explicit saturate-or-fail
policy), so identifier arithmetic is modelled exactly on `Nat`.
-/

set_option maxRecDepth 20000

/-! ## Domain identifier types (`basic_types/src/lib.rs`) -/

/-- Big-endian byte encoding of a natural number on `k` bytes (low `8*k` bits). -/
def beBytes : Nat → Nat → List Nat
  | 0, _ => []
  | k + 1, n => beBytes k (n / 256) ++ [n % 256]

/-- Value of a big-endian byte list. -/
def beVal (l : List Nat) : Nat := l.foldl (fun acc b => acc * 256 + b) 0

/-- Account identifier wrapping a 160-bit address value
(`AccountTreeId` wraps `Address`, a fixed 20-byte value). -/
structure AccountTreeId where
  address : Nat
deriving DecidableEq

/-- Translation of `AccountTreeId::to_fixed_bytes`: the 20 big-endian bytes of the address. -/
def AccountTreeId.to_fixed_bytes (a : AccountTreeId) : List Nat := beBytes 20 a.address

/-- Translation of `AccountTreeId::from_fixed_bytes`. -/
def AccountTreeId.from_fixed_bytes (l : List Nat) : AccountTreeId := ⟨beVal l⟩

/-- Translation of `impl Into<U256> for AccountTreeId`: 32 bytes, the low 20 of which
are the address bytes, read back as a big-endian integer (zero extension). -/
def AccountTreeId.intoU256 (a : AccountTreeId) : Nat :=
  beVal (List.replicate 12 0 ++ a.to_fixed_bytes)

/-- Translation of `impl TryFrom<U256> for AccountTreeId` (error type `Infallible`,
embedded as the uninhabited `Empty`): write the input as 32 big-endian bytes and
keep bytes 12..32, that is the low 20 bytes. -/
def AccountTreeId.try_from (v : Nat) : Except Empty AccountTreeId :=
  Except.ok (AccountTreeId.from_fixed_bytes ((beBytes 32 v).drop 12))

/-- Translation of `L2ChainId::MAX`: `((1 << 53) - 1 - 36) / 2`. -/
def L2ChainId_MAX : Nat := ((2 ^ 53) - 1 - 36) / 2

/-- ChainId in the ZkSync network; wraps a `U256` value. -/
structure L2ChainId where
  value : Nat
deriving DecidableEq

/-- Translation of `impl From<u64> for L2ChainId`: `Self(U256::from(val))`, no validation. -/
def L2ChainId.from_u64 (v : Nat) : L2ChainId := ⟨v⟩

/-- Decimal digit value of a character, if any. -/
def decDigit (c : Char) : Option Nat :=
  if '0' ≤ c ∧ c ≤ '9' then some (c.toNat - 48) else none

/-- Hexadecimal digit value of a character, if any. -/
def hexDigit (c : Char) : Option Nat :=
  if '0' ≤ c ∧ c ≤ '9' then some (c.toNat - 48)
  else if 'a' ≤ c ∧ c ≤ 'f' then some (c.toNat - 87)
  else if 'A' ≤ c ∧ c ≤ 'F' then some (c.toNat - 55)
  else none

/-- Accumulating digit parser over an arbitrary digit table. -/
def parseDigits (digit : Char → Option Nat) (base : Nat) : List Char → Nat → Option Nat
  | [], acc => some acc
  | c :: rest, acc =>
    match digit c with
    | some d => parseDigits digit base rest (acc * base + d)
    | none => none

/-- Modelled from the spec: the external `U256::from_dec_str` used by
`L2ChainId` parsing (the `web3` crate is not among the sources).  Accepts a
non-empty all-decimal string whose value fits in 256 bits. -/
def from_dec_str (s : String) : Option Nat :=
  if s.data = [] then none
  else
    match parseDigits decDigit 10 s.data 0 with
    | some v => if v < 2 ^ 256 then some v else none
    | none => none

/-- Modelled from the spec: the external hexadecimal `U256` string parser used as
fallback by `L2ChainId` parsing (the `web3` crate is not among the sources).
Accepts a non-empty hexadecimal string, with an optional 0x or 0X mark. -/
def from_hex_str (s : String) : Option Nat :=
  let body := if s.data.take 2 = ['0', 'x'] ∨ s.data.take 2 = ['0', 'X'] then
    s.data.drop 2 else s.data
  if body = [] then none
  else
    match parseDigits hexDigit 16 body 0 with
    | some v => if v < 2 ^ 256 then some v else none
    | none => none

/-- Outcome of constructing an `L2ChainId` from a string.  The source enforces the
bound with `assert!`, a program-terminating check, embedded as the distinguished
outcome `panicked`; `err` is the recoverable parse error returned to the caller. -/
inductive ChainIdParse where
  | ok : L2ChainId → ChainIdParse
  | err : ChainIdParse
  | panicked : ChainIdParse
deriving DecidableEq

/-- Translation of `impl FromStr for L2ChainId` (the `Deserialize` impl has the
identical body over the deserialized string): try `U256::from_dec_str` first, fall
back to hexadecimal parsing, then `assert!(u256 <= L2ChainId::MAX.into())`. -/
def L2ChainId.from_str (s : String) : ChainIdParse :=
  match from_dec_str s with
  | some u => if u ≤ L2ChainId_MAX then ChainIdParse.ok ⟨u⟩ else ChainIdParse.panicked
  | none =>
    match from_hex_str s with
    | some u => if u ≤ L2ChainId_MAX then ChainIdParse.ok ⟨u⟩ else ChainIdParse.panicked
    | none => ChainIdParse.err

/-! ## The migration engine (`event_indexes_migration.rs`) -/

/-- zkSync network block sequential index (`MiniblockNumber`, a `u32` newtype
whose arithmetic is modelled exactly on `Nat`; see the file comment). -/
abbrev MiniblockNumber := Nat

/-- Modelled from the spec: the view of the event-index storage the engine's
collaborator contract exposes (the `zksync_dal` crate is not among the sources).
`migrated n` holds when every event row of miniblock `n` already carries correct
derived-index values; `pending n` is the number of event rows a backfill of a
not-yet-migrated miniblock `n` affects. -/
structure EventStorage where
  migrated : MiniblockNumber → Bool
  pending : MiniblockNumber → Nat

/-- Modelled from the spec: the read-only idempotency probe
`EventsDal::are_event_indexes_migrated` — true exactly when every miniblock of the
inclusive range already carries correct derived-index values. -/
def dalAreEventIndexesMigrated (σ : EventStorage) (lo hi : MiniblockNumber) : Bool :=
  (List.range' lo (hi + 1 - lo)).all σ.migrated

/-- Modelled from the spec: the atomic backfill
`EventsDal::assign_indexes_without_eth_transfer` over an inclusive range — marks
every miniblock of the range migrated and returns the number of affected rows,
counting nothing (a no-op returning 0) for already-migrated miniblocks. -/
def assign_indexes_without_eth_transfer (σ : EventStorage) (lo hi : MiniblockNumber) :
    EventStorage × Nat :=
  (⟨fun n => if lo ≤ n ∧ n ≤ hi then true else σ.migrated n, σ.pending⟩,
   ((List.range' lo (hi + 1 - lo)).map fun n => if σ.migrated n then 0 else σ.pending n).sum)

/-- Failure oracle for the three fallible storage operations the engine performs:
connection acquisition (per loop iteration) and the probe and backfill calls
(per range).  A `some` message makes that operation fail with that base error. -/
structure DalFaults where
  connectErr : Nat → Option String
  probeErr : MiniblockNumber → MiniblockNumber → Option String
  backfillErr : MiniblockNumber → MiniblockNumber → Option String

/-- An `anyhow::Error`: a base error message plus the stack of context
annotations pushed onto it (most recent first). -/
structure AnyhowError where
  base : String
  contexts : List String
deriving DecidableEq

/-- Record of one externally observable action of the engine. -/
inductive StorageCall where
  | connect : StorageCall
  | probe : MiniblockNumber → MiniblockNumber → StorageCall
  | backfill : MiniblockNumber → MiniblockNumber → StorageCall
  | sleep : Nat → StorageCall
deriving DecidableEq

/-- Context string the helper `are_event_indexes_migrated` attaches on probe failure. -/
def probeContext (lo hi : MiniblockNumber) : String :=
  "Failed getting event indexes for miniblocks in range #" ++ toString lo ++
    "..=#" ++ toString hi

/-- Context string the engine attaches on backfill failure. -/
def backfillContext (lo hi : MiniblockNumber) : String :=
  "Failed migrating events in miniblocks, chunk " ++ toString lo ++ "..=" ++ toString hi

/-- Translation of the helper `are_event_indexes_migrated`: runs the storage probe
and annotates a failure with the range being queried (`with_context`). -/
def are_event_indexes_migrated (dal : DalFaults) (σ : EventStorage)
    (lo hi : MiniblockNumber) : Except AnyhowError Bool :=
  match dal.probeErr lo hi with
  | some msg => Except.error ⟨msg, [probeContext lo hi]⟩
  | none => Except.ok (dalAreEventIndexesMigrated σ lo hi)

/-- Translation of `MigrationOutput`. -/
structure MigrationOutput where
  events_affected : Nat
deriving DecidableEq

/-- Translation of the `while chunk_start <= last_miniblock` loop body of
`migrate_miniblocks_inner`, by structural recursion on a fuel counter (the caller
supplies fuel `last_miniblock + 1`, an upper bound on the iteration count, so the
fuel-exhaustion branch is unreachable).  Returns the trace of storage calls and
sleeps together with the result.  The cancellation signal is read once per
iteration (`*stop_receiver.borrow()`), modelled as a function of the iteration
index.  Per iteration: acquire a connection, probe the chunk, backfill it when the
probe reports it unmigrated (annotating a failure with the chunk), check the stop
signal (successful early return), advance, and sleep only when the chunk was
backfilled. -/
def migrateLoop (dal : DalFaults) (last size sleepInterval : Nat) (stop : Nat → Bool) :
    Nat → Nat → Nat → Nat → EventStorage →
      List StorageCall × Except AnyhowError (MigrationOutput × EventStorage)
  | 0, chunkStart, events_affected, _, σ =>
    if chunkStart ≤ last then ([], Except.error ⟨"loop fuel exhausted", []⟩)
    else ([], Except.ok (⟨events_affected⟩, σ))
  | fuel + 1, chunkStart, events_affected, iter, σ =>
    if chunkStart ≤ last then
      let chunkEnd := min last (chunkStart + size - 1)
      match dal.connectErr iter with
      | some msg => ([StorageCall.connect], Except.error ⟨msg, []⟩)
      | none =>
        match are_event_indexes_migrated dal σ chunkStart chunkEnd with
        | Except.error e =>
          ([StorageCall.connect, StorageCall.probe chunkStart chunkEnd], Except.error e)
        | Except.ok isChunkMigrated =>
          if isChunkMigrated then
            if stop iter then
              ([StorageCall.connect, StorageCall.probe chunkStart chunkEnd],
               Except.ok (⟨events_affected⟩, σ))
            else
              let rest := migrateLoop dal last size sleepInterval stop fuel
                (chunkEnd + 1) events_affected (iter + 1) σ
              (StorageCall.connect :: StorageCall.probe chunkStart chunkEnd :: rest.1, rest.2)
          else
            match dal.backfillErr chunkStart chunkEnd with
            | some msg =>
              ([StorageCall.connect, StorageCall.probe chunkStart chunkEnd,
                StorageCall.backfill chunkStart chunkEnd],
               Except.error ⟨msg, [backfillContext chunkStart chunkEnd]⟩)
            | none =>
              let bf := assign_indexes_without_eth_transfer σ chunkStart chunkEnd
              if stop iter then
                ([StorageCall.connect, StorageCall.probe chunkStart chunkEnd,
                  StorageCall.backfill chunkStart chunkEnd],
                 Except.ok (⟨events_affected + bf.2⟩, bf.1))
              else
                let rest := migrateLoop dal last size sleepInterval stop fuel
                  (chunkEnd + 1) (events_affected + bf.2) (iter + 1) bf.1
                (StorageCall.connect :: StorageCall.probe chunkStart chunkEnd ::
                  StorageCall.backfill chunkStart chunkEnd ::
                  StorageCall.sleep sleepInterval :: rest.1, rest.2)
    else ([], Except.ok (⟨events_affected⟩, σ))

/-- Translation of `migrate_miniblocks_inner`: rejects `chunk_size == 0` via
`anyhow::ensure!` before any storage access, otherwise runs the chunk loop from
`chunk_start = 0` with `events_affected = 0`. -/
def migrate_miniblocks_inner (dal : DalFaults) (σ : EventStorage)
    (last_miniblock : MiniblockNumber) (chunk_size sleepInterval : Nat)
    (stop : Nat → Bool) :
    List StorageCall × Except AnyhowError (MigrationOutput × EventStorage) :=
  if 0 < chunk_size then
    migrateLoop dal last_miniblock chunk_size sleepInterval stop
      (last_miniblock + 1) 0 0 0 σ
  else ([], Except.error ⟨"Chunk size must be positive", []⟩)

/-- The fault-free storage oracle: no operation ever fails. -/
def okDal : DalFaults := ⟨fun _ => none, fun _ _ => none, fun _ _ => none⟩

/-- A cancellation signal that is never set. -/
def noStop : Nat → Bool := fun _ => false

/-- A cancellation signal that is set from before invocation. -/
def alwaysStop : Nat → Bool := fun _ => true

/-- Ranges passed to the storage collaborator (probe or backfill) in a trace. -/
def traceRanges (tr : List StorageCall) : List (MiniblockNumber × MiniblockNumber) :=
  tr.filterMap fun c =>
    match c with
    | StorageCall.probe lo hi => some (lo, hi)
    | StorageCall.backfill lo hi => some (lo, hi)
    | _ => none

/-- Ranges probed in a trace, in order. -/
def probeRanges (tr : List StorageCall) : List (MiniblockNumber × MiniblockNumber) :=
  tr.filterMap fun c =>
    match c with
    | StorageCall.probe lo hi => some (lo, hi)
    | _ => none

/-- A storage call touches only blocks of the snapshot `[0, last]` and, if it
carries a range, that range is non-empty (inclusive `lo ≤ hi`). -/
def withinSnapshot (last : Nat) : StorageCall → Prop
  | StorageCall.probe lo hi => lo ≤ hi ∧ hi ≤ last
  | StorageCall.backfill lo hi => lo ≤ hi ∧ hi ≤ last
  | _ => True

/-- The window list the specification prescribes: starting from `start`, while
`start ≤ last` emit the inclusive window from `start` to
`min last (start + size - 1)` and continue from its end plus one. -/
def specWindows (last size : Nat) : Nat → Nat → List (Nat × Nat)
  | 0, _ => []
  | fuel + 1, start =>
    if start ≤ last then
      (start, min last (start + size - 1)) ::
        specWindows last size fuel (min last (start + size - 1) + 1)
    else []

/-- The relation underlying the sleep discipline: a sleep appears in the trace
exactly at the positions immediately following a backfill call. -/
def sleepAfterBackfill (a b : StorageCall) : Prop :=
  (∃ d, b = StorageCall.sleep d) ↔ (∃ lo hi, a = StorageCall.backfill lo hi)

/-! ## Concrete fixtures -/

/-- A storage state with nothing migrated and 7 pending event rows per miniblock
(matching the repository's test fixture of 7 candidate rows per block). -/
def sigmaUnmigrated : EventStorage := ⟨fun _ => false, fun _ => 7⟩

/-- A faults oracle whose connection acquisition always fails. -/
def connDownDal : DalFaults :=
  ⟨fun _ => some "pool down", fun _ _ => none, fun _ _ => none⟩

/-- A faults oracle whose probe of the range from 0 to 0 fails. -/
def probeDownDal : DalFaults :=
  ⟨fun _ => none,
   fun lo hi => if lo = 0 ∧ hi = 0 then some "db timeout" else none,
   fun _ _ => none⟩

/-! ## Step equations for the loop -/

theorem migrateLoop_exit (dal : DalFaults) (last size si : Nat) (stop : Nat → Bool)
    (fuel cs acc it : Nat) (σ : EventStorage) (hcs : ¬ cs ≤ last) :
    migrateLoop dal last size si stop fuel cs acc it σ =
      ([], Except.ok (⟨acc⟩, σ)) := by
  cases fuel <;> simp only [migrateLoop] <;> rw [if_neg hcs]

theorem migrateLoop_connect_err (dal : DalFaults) (last size si : Nat) (stop : Nat → Bool)
    (fuel cs acc it : Nat) (σ : EventStorage) (hcs : cs ≤ last) (m : String)
    (hconn : dal.connectErr it = some m) :
    migrateLoop dal last size si stop (fuel + 1) cs acc it σ =
      ([StorageCall.connect], Except.error ⟨m, []⟩) := by
  simp only [migrateLoop]
  rw [if_pos hcs, hconn]

theorem migrateLoop_probe_err (dal : DalFaults) (last size si : Nat) (stop : Nat → Bool)
    (fuel cs acc it : Nat) (σ : EventStorage) (hcs : cs ≤ last) (m : String)
    (hconn : dal.connectErr it = none)
    (hprobe : dal.probeErr cs (min last (cs + size - 1)) = some m) :
    migrateLoop dal last size si stop (fuel + 1) cs acc it σ =
      ([StorageCall.connect, StorageCall.probe cs (min last (cs + size - 1))],
       Except.error ⟨m, [probeContext cs (min last (cs + size - 1))]⟩) := by
  simp only [migrateLoop, are_event_indexes_migrated]
  rw [if_pos hcs, hconn, hprobe]

theorem migrateLoop_skip_stop (dal : DalFaults) (last size si : Nat) (stop : Nat → Bool)
    (fuel cs acc it : Nat) (σ : EventStorage) (hcs : cs ≤ last)
    (hconn : dal.connectErr it = none)
    (hprobe : dal.probeErr cs (min last (cs + size - 1)) = none)
    (hmig : dalAreEventIndexesMigrated σ cs (min last (cs + size - 1)) = true)
    (hstop : stop it = true) :
    migrateLoop dal last size si stop (fuel + 1) cs acc it σ =
      ([StorageCall.connect, StorageCall.probe cs (min last (cs + size - 1))],
       Except.ok (⟨acc⟩, σ)) := by
  simp only [migrateLoop, are_event_indexes_migrated]
  rw [if_pos hcs, hconn, hprobe]
  simp only [hmig, if_pos, hstop, if_true]

theorem migrateLoop_skip_go (dal : DalFaults) (last size si : Nat) (stop : Nat → Bool)
    (fuel cs acc it : Nat) (σ : EventStorage) (hcs : cs ≤ last)
    (hconn : dal.connectErr it = none)
    (hprobe : dal.probeErr cs (min last (cs + size - 1)) = none)
    (hmig : dalAreEventIndexesMigrated σ cs (min last (cs + size - 1)) = true)
    (hstop : stop it = false) :
    migrateLoop dal last size si stop (fuel + 1) cs acc it σ =
      (StorageCall.connect :: StorageCall.probe cs (min last (cs + size - 1)) ::
        (migrateLoop dal last size si stop fuel
          (min last (cs + size - 1) + 1) acc (it + 1) σ).1,
       (migrateLoop dal last size si stop fuel
          (min last (cs + size - 1) + 1) acc (it + 1) σ).2) := by
  simp only [migrateLoop, are_event_indexes_migrated]
  rw [if_pos hcs, hconn, hprobe]
  simp only [hmig, hstop, if_true, if_false, Bool.false_eq_true]

theorem migrateLoop_backfill_err (dal : DalFaults) (last size si : Nat) (stop : Nat → Bool)
    (fuel cs acc it : Nat) (σ : EventStorage) (hcs : cs ≤ last) (m : String)
    (hconn : dal.connectErr it = none)
    (hprobe : dal.probeErr cs (min last (cs + size - 1)) = none)
    (hmig : dalAreEventIndexesMigrated σ cs (min last (cs + size - 1)) = false)
    (hbf : dal.backfillErr cs (min last (cs + size - 1)) = some m) :
    migrateLoop dal last size si stop (fuel + 1) cs acc it σ =
      ([StorageCall.connect, StorageCall.probe cs (min last (cs + size - 1)),
        StorageCall.backfill cs (min last (cs + size - 1))],
       Except.error ⟨m, [backfillContext cs (min last (cs + size - 1))]⟩) := by
  simp only [migrateLoop, are_event_indexes_migrated]
  rw [if_pos hcs, hconn, hprobe, hbf]
  simp only [hmig, Bool.false_eq_true, if_false]

theorem migrateLoop_backfill_stop (dal : DalFaults) (last size si : Nat) (stop : Nat → Bool)
    (fuel cs acc it : Nat) (σ : EventStorage) (hcs : cs ≤ last)
    (hconn : dal.connectErr it = none)
    (hprobe : dal.probeErr cs (min last (cs + size - 1)) = none)
    (hmig : dalAreEventIndexesMigrated σ cs (min last (cs + size - 1)) = false)
    (hbf : dal.backfillErr cs (min last (cs + size - 1)) = none)
    (hstop : stop it = true) :
    migrateLoop dal last size si stop (fuel + 1) cs acc it σ =
      ([StorageCall.connect, StorageCall.probe cs (min last (cs + size - 1)),
        StorageCall.backfill cs (min last (cs + size - 1))],
       Except.ok
        (⟨acc + (assign_indexes_without_eth_transfer σ cs (min last (cs + size - 1))).2⟩,
         (assign_indexes_without_eth_transfer σ cs (min last (cs + size - 1))).1)) := by
  simp only [migrateLoop, are_event_indexes_migrated]
  rw [if_pos hcs, hconn, hprobe, hbf]
  simp only [hmig, hstop, Bool.false_eq_true, if_false, if_true]

theorem migrateLoop_backfill_go (dal : DalFaults) (last size si : Nat) (stop : Nat → Bool)
    (fuel cs acc it : Nat) (σ : EventStorage) (hcs : cs ≤ last)
    (hconn : dal.connectErr it = none)
    (hprobe : dal.probeErr cs (min last (cs + size - 1)) = none)
    (hmig : dalAreEventIndexesMigrated σ cs (min last (cs + size - 1)) = false)
    (hbf : dal.backfillErr cs (min last (cs + size - 1)) = none)
    (hstop : stop it = false) :
    migrateLoop dal last size si stop (fuel + 1) cs acc it σ =
      (StorageCall.connect :: StorageCall.probe cs (min last (cs + size - 1)) ::
        StorageCall.backfill cs (min last (cs + size - 1)) :: StorageCall.sleep si ::
        (migrateLoop dal last size si stop fuel (min last (cs + size - 1) + 1)
          (acc + (assign_indexes_without_eth_transfer σ cs (min last (cs + size - 1))).2)
          (it + 1)
          (assign_indexes_without_eth_transfer σ cs (min last (cs + size - 1))).1).1,
       (migrateLoop dal last size si stop fuel (min last (cs + size - 1) + 1)
          (acc + (assign_indexes_without_eth_transfer σ cs (min last (cs + size - 1))).2)
          (it + 1)
          (assign_indexes_without_eth_transfer σ cs (min last (cs + size - 1))).1).2) := by
  simp only [migrateLoop, are_event_indexes_migrated]
  rw [if_pos hcs, hconn, hprobe, hbf]
  simp only [hmig, hstop, Bool.false_eq_true, if_false]

/-! ## Supporting lemmas -/

theorem dalAre_true_iff (σ : EventStorage) (lo hi : Nat) :
    dalAreEventIndexesMigrated σ lo hi = true ↔
      ∀ n, lo ≤ n → n ≤ hi → σ.migrated n = true := by
  unfold dalAreEventIndexesMigrated
  rw [List.all_eq_true]
  constructor
  · intro H n h1 h2
    exact H n (List.mem_range'.2 ⟨n - lo, by omega, by omega⟩)
  · intro H n hn
    obtain ⟨i, hlt, rfl⟩ := List.mem_range'.1 hn
    exact H _ (by omega) (by omega)

theorem assign_migrated_eq (σ : EventStorage) (lo hi n : Nat) :
    (assign_indexes_without_eth_transfer σ lo hi).1.migrated n =
      if lo ≤ n ∧ n ≤ hi then true else σ.migrated n := rfl

theorem migrateLoop_withinSnapshot (dal : DalFaults) (last size si : Nat)
    (stop : Nat → Bool) (hsize : 0 < size) :
    ∀ (fuel cs acc it : Nat) (σ : EventStorage),
      ∀ c ∈ (migrateLoop dal last size si stop fuel cs acc it σ).1,
        withinSnapshot last c := by
  intro fuel
  induction fuel with
  | zero =>
    intro cs acc it σ c hc
    simp only [migrateLoop] at hc
    split at hc <;> exact absurd hc (List.not_mem_nil c)
  | succ fuel ih =>
    intro cs acc it σ c hc
    by_cases hcs : cs ≤ last
    · have h1 : cs ≤ min last (cs + size - 1) := by omega
      have h2 : min last (cs + size - 1) ≤ last := by omega
      cases hconn : dal.connectErr it with
      | some m =>
        rw [migrateLoop_connect_err dal last size si stop fuel cs acc it σ hcs m hconn] at hc
        simp only [List.mem_cons, List.not_mem_nil, or_false] at hc
        subst hc; trivial
      | none =>
        cases hprobe : dal.probeErr cs (min last (cs + size - 1)) with
        | some m =>
          rw [migrateLoop_probe_err dal last size si stop fuel cs acc it σ hcs m hconn
            hprobe] at hc
          simp only [List.mem_cons, List.not_mem_nil, or_false] at hc
          rcases hc with rfl | rfl
          · trivial
          · exact ⟨h1, h2⟩
        | none =>
          cases hmig : dalAreEventIndexesMigrated σ cs (min last (cs + size - 1)) with
          | true =>
            cases hstop : stop it with
            | true =>
              rw [migrateLoop_skip_stop dal last size si stop fuel cs acc it σ hcs hconn
                hprobe hmig hstop] at hc
              simp only [List.mem_cons, List.not_mem_nil, or_false] at hc
              rcases hc with rfl | rfl
              · trivial
              · exact ⟨h1, h2⟩
            | false =>
              rw [migrateLoop_skip_go dal last size si stop fuel cs acc it σ hcs hconn
                hprobe hmig hstop] at hc
              simp only [List.mem_cons] at hc
              rcases hc with rfl | rfl | hc
              · trivial
              · exact ⟨h1, h2⟩
              · exact ih _ _ _ _ c hc
          | false =>
            cases hbf : dal.backfillErr cs (min last (cs + size - 1)) with
            | some m =>
              rw [migrateLoop_backfill_err dal last size si stop fuel cs acc it σ hcs m
                hconn hprobe hmig hbf] at hc
              simp only [List.mem_cons, List.not_mem_nil, or_false] at hc
              rcases hc with rfl | rfl | rfl
              · trivial
              · exact ⟨h1, h2⟩
              · exact ⟨h1, h2⟩
            | none =>
              cases hstop : stop it with
              | true =>
                rw [migrateLoop_backfill_stop dal last size si stop fuel cs acc it σ hcs
                  hconn hprobe hmig hbf hstop] at hc
                simp only [List.mem_cons, List.not_mem_nil, or_false] at hc
                rcases hc with rfl | rfl | rfl
                · trivial
                · exact ⟨h1, h2⟩
                · exact ⟨h1, h2⟩
              | false =>
                rw [migrateLoop_backfill_go dal last size si stop fuel cs acc it σ hcs
                  hconn hprobe hmig hbf hstop] at hc
                simp only [List.mem_cons] at hc
                rcases hc with rfl | rfl | rfl | rfl | hc
                · trivial
                · exact ⟨h1, h2⟩
                · exact ⟨h1, h2⟩
                · trivial
                · exact ih _ _ _ _ c hc
    · rw [migrateLoop_exit dal last size si stop (fuel + 1) cs acc it σ hcs] at hc
      exact absurd hc (List.not_mem_nil c)

theorem migrateLoop_okDal_noStop (last size si : Nat) (hsize : 0 < size) :
    ∀ (fuel cs acc it : Nat) (σ : EventStorage), last + 1 - cs ≤ fuel →
      ∃ c σ',
        (migrateLoop okDal last size si noStop fuel cs acc it σ).2 =
            Except.ok (⟨c⟩, σ') ∧
          acc ≤ c ∧
          (∀ n, σ.migrated n = true → σ'.migrated n = true) ∧
          (∀ n, cs ≤ n → n ≤ last → σ'.migrated n = true) ∧
          probeRanges (migrateLoop okDal last size si noStop fuel cs acc it σ).1 =
            specWindows last size fuel cs := by
  intro fuel
  induction fuel with
  | zero =>
    intro cs acc it σ hfuel
    have hcs : ¬ cs ≤ last := by omega
    rw [migrateLoop_exit okDal last size si noStop 0 cs acc it σ hcs]
    exact ⟨acc, σ, rfl, Nat.le_refl acc, fun n h => h,
      fun n hn1 hn2 => absurd (hn1.trans hn2) hcs,
      by simp [probeRanges, specWindows]⟩
  | succ fuel ih =>
    intro cs acc it σ hfuel
    by_cases hcs : cs ≤ last
    · have h1 : cs ≤ min last (cs + size - 1) := by omega
      have h2 : min last (cs + size - 1) ≤ last := by omega
      cases hmig : dalAreEventIndexesMigrated σ cs (min last (cs + size - 1)) with
      | true =>
        rw [migrateLoop_skip_go okDal last size si noStop fuel cs acc it σ hcs rfl rfl
          hmig rfl]
        obtain ⟨c, σ', hres, hacc, hmono, hcover, hpr⟩ :=
          ih (min last (cs + size - 1) + 1) acc (it + 1) σ (by omega)
        refine ⟨c, σ', hres, hacc, hmono, ?_, ?_⟩
        · intro n hn1 hn2
          by_cases hn3 : n ≤ min last (cs + size - 1)
          · exact hmono n ((dalAre_true_iff σ cs (min last (cs + size - 1))).1 hmig n hn1 hn3)
          · exact hcover n (by omega) hn2
        · simp only [probeRanges, List.filterMap_cons]
          rw [specWindows, if_pos hcs]
          exact congrArg _ hpr
      | false =>
        rw [migrateLoop_backfill_go okDal last size si noStop fuel cs acc it σ hcs rfl rfl
          hmig rfl rfl]
        obtain ⟨c, σ', hres, hacc, hmono, hcover, hpr⟩ :=
          ih (min last (cs + size - 1) + 1)
            (acc + (assign_indexes_without_eth_transfer σ cs (min last (cs + size - 1))).2)
            (it + 1)
            (assign_indexes_without_eth_transfer σ cs (min last (cs + size - 1))).1
            (by omega)
        refine ⟨c, σ', hres, by omega, ?_, ?_, ?_⟩
        · intro n hn
          apply hmono
          rw [assign_migrated_eq]
          split
          · rfl
          · exact hn
        · intro n hn1 hn2
          by_cases hn3 : n ≤ min last (cs + size - 1)
          · apply hmono
            rw [assign_migrated_eq, if_pos ⟨hn1, hn3⟩]
          · exact hcover n (by omega) hn2
        · simp only [probeRanges, List.filterMap_cons]
          rw [specWindows, if_pos hcs]
          exact congrArg _ hpr
    · rw [migrateLoop_exit okDal last size si noStop (fuel + 1) cs acc it σ hcs]
      refine ⟨acc, σ, rfl, Nat.le_refl acc, fun n h => h,
        fun n hn1 hn2 => absurd (hn1.trans hn2) hcs, ?_⟩
      rw [specWindows, if_neg hcs]
      simp [probeRanges]

theorem migrateLoop_all_migrated (last size si : Nat) (hsize : 0 < size) :
    ∀ (fuel cs acc it : Nat) (σ : EventStorage), last + 1 - cs ≤ fuel →
      (∀ n, cs ≤ n → n ≤ last → σ.migrated n = true) →
      (migrateLoop okDal last size si noStop fuel cs acc it σ).2 =
        Except.ok (⟨acc⟩, σ) := by
  intro fuel
  induction fuel with
  | zero =>
    intro cs acc it σ hfuel hall
    have hcs : ¬ cs ≤ last := by omega
    rw [migrateLoop_exit okDal last size si noStop 0 cs acc it σ hcs]
  | succ fuel ih =>
    intro cs acc it σ hfuel hall
    by_cases hcs : cs ≤ last
    · have h2 : min last (cs + size - 1) ≤ last := by omega
      have hmig : dalAreEventIndexesMigrated σ cs (min last (cs + size - 1)) = true := by
        rw [dalAre_true_iff]
        intro n hn1 hn2
        exact hall n hn1 (by omega)
      rw [migrateLoop_skip_go okDal last size si noStop fuel cs acc it σ hcs rfl rfl
        hmig rfl]
      exact ih (min last (cs + size - 1) + 1) acc (it + 1) σ (by omega)
        (fun n hn1 hn2 => hall n (by omega) hn2)
    · rw [migrateLoop_exit okDal last size si noStop (fuel + 1) cs acc it σ hcs]

theorem migrateLoop_okDal_ok (last size si : Nat) (stop : Nat → Bool) (hsize : 0 < size) :
    ∀ (fuel cs acc it : Nat) (σ : EventStorage), last + 1 - cs ≤ fuel →
      ∃ c σ',
        (migrateLoop okDal last size si stop fuel cs acc it σ).2 =
          Except.ok (⟨c⟩, σ') := by
  intro fuel
  induction fuel with
  | zero =>
    intro cs acc it σ hfuel
    have hcs : ¬ cs ≤ last := by omega
    rw [migrateLoop_exit okDal last size si stop 0 cs acc it σ hcs]
    exact ⟨acc, σ, rfl⟩
  | succ fuel ih =>
    intro cs acc it σ hfuel
    by_cases hcs : cs ≤ last
    · cases hmig : dalAreEventIndexesMigrated σ cs (min last (cs + size - 1)) with
      | true =>
        cases hstop : stop it with
        | true =>
          rw [migrateLoop_skip_stop okDal last size si stop fuel cs acc it σ hcs rfl rfl
            hmig hstop]
          exact ⟨acc, σ, rfl⟩
        | false =>
          rw [migrateLoop_skip_go okDal last size si stop fuel cs acc it σ hcs rfl rfl
            hmig hstop]
          exact ih (min last (cs + size - 1) + 1) acc (it + 1) σ (by omega)
      | false =>
        cases hstop : stop it with
        | true =>
          rw [migrateLoop_backfill_stop okDal last size si stop fuel cs acc it σ hcs rfl
            rfl hmig rfl hstop]
          exact ⟨_, _, rfl⟩
        | false =>
          rw [migrateLoop_backfill_go okDal last size si stop fuel cs acc it σ hcs rfl
            rfl hmig rfl hstop]
          exact ih (min last (cs + size - 1) + 1) _ (it + 1) _ (by omega)
    · rw [migrateLoop_exit okDal last size si stop (fuel + 1) cs acc it σ hcs]
      exact ⟨acc, σ, rfl⟩

theorem getLast?_glue {α : Type} (pre l : List α) (x : α) (h : l.getLast? = some x) :
    (pre ++ l).getLast? = some x := by
  rw [List.getLast?_append, h]
  rfl

theorem migrateLoop_error_shape (dal : DalFaults) (last size si : Nat)
    (stop : Nat → Bool) (hsize : 0 < size) :
    ∀ (fuel cs acc it : Nat) (σ : EventStorage), last + 1 - cs ≤ fuel →
      ∀ e, (migrateLoop dal last size si stop fuel cs acc it σ).2 = Except.error e →
        (e.contexts = [] ∧ (∃ i, dal.connectErr i = some e.base) ∧
          (migrateLoop dal last size si stop fuel cs acc it σ).1.getLast? =
            some StorageCall.connect) ∨
        (∃ lo hi, lo ≤ hi ∧ hi ≤ last ∧ dal.probeErr lo hi = some e.base ∧
          e.contexts = [probeContext lo hi] ∧
          (migrateLoop dal last size si stop fuel cs acc it σ).1.getLast? =
            some (StorageCall.probe lo hi)) ∨
        (∃ lo hi, lo ≤ hi ∧ hi ≤ last ∧ dal.backfillErr lo hi = some e.base ∧
          e.contexts = [backfillContext lo hi] ∧
          (migrateLoop dal last size si stop fuel cs acc it σ).1.getLast? =
            some (StorageCall.backfill lo hi)) := by
  intro fuel
  induction fuel with
  | zero =>
    intro cs acc it σ hfuel e he
    rw [migrateLoop_exit dal last size si stop 0 cs acc it σ (by omega)] at he
    exact absurd he (by simp)
  | succ fuel ih =>
    intro cs acc it σ hfuel e he
    by_cases hcs : cs ≤ last
    · have h1 : cs ≤ min last (cs + size - 1) := by omega
      have h2 : min last (cs + size - 1) ≤ last := by omega
      cases hconn : dal.connectErr it with
      | some m =>
        rw [migrateLoop_connect_err dal last size si stop fuel cs acc it σ hcs m hconn]
          at he ⊢
        obtain rfl : AnyhowError.mk m [] = e := by
          simpa using he
        exact Or.inl ⟨rfl, ⟨it, hconn⟩, rfl⟩
      | none =>
        cases hprobe : dal.probeErr cs (min last (cs + size - 1)) with
        | some m =>
          rw [migrateLoop_probe_err dal last size si stop fuel cs acc it σ hcs m hconn
            hprobe] at he ⊢
          obtain rfl : AnyhowError.mk m [probeContext cs (min last (cs + size - 1))] = e := by
            simpa using he
          exact Or.inr (Or.inl ⟨cs, min last (cs + size - 1), h1, h2, hprobe, rfl, rfl⟩)
        | none =>
          cases hmig : dalAreEventIndexesMigrated σ cs (min last (cs + size - 1)) with
          | true =>
            cases hstop : stop it with
            | true =>
              rw [migrateLoop_skip_stop dal last size si stop fuel cs acc it σ hcs hconn
                hprobe hmig hstop] at he
              exact absurd he (by simp)
            | false =>
              rw [migrateLoop_skip_go dal last size si stop fuel cs acc it σ hcs hconn
                hprobe hmig hstop] at he ⊢
              rcases ih (min last (cs + size - 1) + 1) acc (it + 1) σ (by omega) e he with
                ⟨hctx, hi, hlast⟩ | ⟨lo, hi', hd⟩ | ⟨lo, hi', hd⟩
              · exact Or.inl ⟨hctx, hi,
                  getLast?_glue [StorageCall.connect,
                    StorageCall.probe cs (min last (cs + size - 1))] _ _ hlast⟩
              · exact Or.inr (Or.inl ⟨lo, hi', hd.1, hd.2.1, hd.2.2.1, hd.2.2.2.1,
                  getLast?_glue [StorageCall.connect,
                    StorageCall.probe cs (min last (cs + size - 1))] _ _ hd.2.2.2.2⟩)
              · exact Or.inr (Or.inr ⟨lo, hi', hd.1, hd.2.1, hd.2.2.1, hd.2.2.2.1,
                  getLast?_glue [StorageCall.connect,
                    StorageCall.probe cs (min last (cs + size - 1))] _ _ hd.2.2.2.2⟩)
          | false =>
            cases hbf : dal.backfillErr cs (min last (cs + size - 1)) with
            | some m =>
              rw [migrateLoop_backfill_err dal last size si stop fuel cs acc it σ hcs m
                hconn hprobe hmig hbf] at he ⊢
              obtain rfl :
                  AnyhowError.mk m [backfillContext cs (min last (cs + size - 1))] = e := by
                simpa using he
              exact Or.inr (Or.inr ⟨cs, min last (cs + size - 1), h1, h2, hbf, rfl, rfl⟩)
            | none =>
              cases hstop : stop it with
              | true =>
                rw [migrateLoop_backfill_stop dal last size si stop fuel cs acc it σ hcs
                  hconn hprobe hmig hbf hstop] at he
                exact absurd he (by simp)
              | false =>
                rw [migrateLoop_backfill_go dal last size si stop fuel cs acc it σ hcs
                  hconn hprobe hmig hbf hstop] at he ⊢
                rcases ih (min last (cs + size - 1) + 1)
                    (acc + (assign_indexes_without_eth_transfer σ cs
                      (min last (cs + size - 1))).2) (it + 1)
                    (assign_indexes_without_eth_transfer σ cs
                      (min last (cs + size - 1))).1 (by omega) e he with
                  ⟨hctx, hi, hlast⟩ | ⟨lo, hi', hd⟩ | ⟨lo, hi', hd⟩
                · exact Or.inl ⟨hctx, hi,
                    getLast?_glue [StorageCall.connect,
                      StorageCall.probe cs (min last (cs + size - 1)),
                      StorageCall.backfill cs (min last (cs + size - 1)),
                      StorageCall.sleep si] _ _ hlast⟩
                · exact Or.inr (Or.inl ⟨lo, hi', hd.1, hd.2.1, hd.2.2.1, hd.2.2.2.1,
                    getLast?_glue [StorageCall.connect,
                      StorageCall.probe cs (min last (cs + size - 1)),
                      StorageCall.backfill cs (min last (cs + size - 1)),
                      StorageCall.sleep si] _ _ hd.2.2.2.2⟩)
                · exact Or.inr (Or.inr ⟨lo, hi', hd.1, hd.2.1, hd.2.2.1, hd.2.2.2.1,
                    getLast?_glue [StorageCall.connect,
                      StorageCall.probe cs (min last (cs + size - 1)),
                      StorageCall.backfill cs (min last (cs + size - 1)),
                      StorageCall.sleep si] _ _ hd.2.2.2.2⟩)
    · rw [migrateLoop_exit dal last size si stop (fuel + 1) cs acc it σ hcs] at he
      exact absurd he (by simp)

theorem migrateLoop_head (dal : DalFaults) (last size si : Nat) (stop : Nat → Bool)
    (fuel cs acc it : Nat) (σ : EventStorage) :
    (migrateLoop dal last size si stop fuel cs acc it σ).1 = [] ∨
      ∃ t, (migrateLoop dal last size si stop fuel cs acc it σ).1 =
        StorageCall.connect :: t := by
  cases fuel with
  | zero =>
    simp only [migrateLoop]
    split <;> exact Or.inl rfl
  | succ fuel =>
    by_cases hcs : cs ≤ last
    · simp only [migrateLoop]
      rw [if_pos hcs]
      cases hconn : dal.connectErr it with
      | some m => exact Or.inr ⟨_, rfl⟩
      | none =>
        cases hpr : are_event_indexes_migrated dal σ cs (min last (cs + size - 1)) with
        | error e => exact Or.inr ⟨_, rfl⟩
        | ok isMig =>
          cases isMig
          · cases hbf : dal.backfillErr cs (min last (cs + size - 1)) with
            | some m => exact Or.inr ⟨_, rfl⟩
            | none =>
              cases hstop : stop it
              · exact Or.inr ⟨_, rfl⟩
              · exact Or.inr ⟨_, rfl⟩
          · cases hstop : stop it
            · exact Or.inr ⟨_, rfl⟩
            · exact Or.inr ⟨_, rfl⟩
    · rw [migrateLoop_exit dal last size si stop (fuel + 1) cs acc it σ hcs]
      exact Or.inl rfl

theorem migrateLoop_sleep_shape (dal : DalFaults) (last size si : Nat)
    (stop : Nat → Bool) :
    ∀ (fuel cs acc it : Nat) (σ : EventStorage),
      List.Chain' sleepAfterBackfill
        (migrateLoop dal last size si stop fuel cs acc it σ).1 := by
  intro fuel
  induction fuel with
  | zero =>
    intro cs acc it σ
    simp only [migrateLoop]
    split <;> exact List.chain'_nil
  | succ fuel ih =>
    intro cs acc it σ
    by_cases hcs : cs ≤ last
    · cases hconn : dal.connectErr it with
      | some m =>
        rw [migrateLoop_connect_err dal last size si stop fuel cs acc it σ hcs m hconn]
        simp [sleepAfterBackfill]
      | none =>
        cases hprobe : dal.probeErr cs (min last (cs + size - 1)) with
        | some m =>
          rw [migrateLoop_probe_err dal last size si stop fuel cs acc it σ hcs m hconn
            hprobe]
          simp [List.chain'_cons, sleepAfterBackfill]
        | none =>
          cases hmig : dalAreEventIndexesMigrated σ cs (min last (cs + size - 1)) with
          | true =>
            cases hstop : stop it with
            | true =>
              rw [migrateLoop_skip_stop dal last size si stop fuel cs acc it σ hcs hconn
                hprobe hmig hstop]
              simp [List.chain'_cons, sleepAfterBackfill]
            | false =>
              rw [migrateLoop_skip_go dal last size si stop fuel cs acc it σ hcs hconn
                hprobe hmig hstop]
              have hpre : (StorageCall.connect :: StorageCall.probe cs
                  (min last (cs + size - 1)) ::
                  (migrateLoop dal last size si stop fuel (min last (cs + size - 1) + 1)
                    acc (it + 1) σ).1) =
                  [StorageCall.connect, StorageCall.probe cs (min last (cs + size - 1))] ++
                  (migrateLoop dal last size si stop fuel (min last (cs + size - 1) + 1)
                    acc (it + 1) σ).1 := rfl
              rw [hpre, List.chain'_append]
              refine ⟨by simp [List.chain'_cons, sleepAfterBackfill], ih _ _ _ _, ?_⟩
              intro x hx y hy
              rcases migrateLoop_head dal last size si stop fuel
                  (min last (cs + size - 1) + 1) acc (it + 1) σ with hnil | ⟨t, ht⟩
              · rw [hnil] at hy
                simp at hy
              · rw [ht] at hy
                simp at hy
                simp at hx
                subst hx
                subst hy
                simp [sleepAfterBackfill]
          | false =>
            cases hbf : dal.backfillErr cs (min last (cs + size - 1)) with
            | some m =>
              rw [migrateLoop_backfill_err dal last size si stop fuel cs acc it σ hcs m
                hconn hprobe hmig hbf]
              simp [List.chain'_cons, sleepAfterBackfill]
            | none =>
              cases hstop : stop it with
              | true =>
                rw [migrateLoop_backfill_stop dal last size si stop fuel cs acc it σ hcs
                  hconn hprobe hmig hbf hstop]
                simp [List.chain'_cons, sleepAfterBackfill]
              | false =>
                rw [migrateLoop_backfill_go dal last size si stop fuel cs acc it σ hcs
                  hconn hprobe hmig hbf hstop]
                have hpre : (StorageCall.connect :: StorageCall.probe cs
                    (min last (cs + size - 1)) ::
                    StorageCall.backfill cs (min last (cs + size - 1)) ::
                    StorageCall.sleep si ::
                    (migrateLoop dal last size si stop fuel
                      (min last (cs + size - 1) + 1)
                      (acc + (assign_indexes_without_eth_transfer σ cs
                        (min last (cs + size - 1))).2) (it + 1)
                      (assign_indexes_without_eth_transfer σ cs
                        (min last (cs + size - 1))).1).1) =
                    [StorageCall.connect, StorageCall.probe cs (min last (cs + size - 1)),
                      StorageCall.backfill cs (min last (cs + size - 1)),
                      StorageCall.sleep si] ++
                    (migrateLoop dal last size si stop fuel
                      (min last (cs + size - 1) + 1)
                      (acc + (assign_indexes_without_eth_transfer σ cs
                        (min last (cs + size - 1))).2) (it + 1)
                      (assign_indexes_without_eth_transfer σ cs
                        (min last (cs + size - 1))).1).1 := rfl
                rw [hpre, List.chain'_append]
                refine ⟨by simp [List.chain'_cons, sleepAfterBackfill], ih _ _ _ _, ?_⟩
                intro x hx y hy
                rcases migrateLoop_head dal last size si stop fuel
                    (min last (cs + size - 1) + 1)
                    (acc + (assign_indexes_without_eth_transfer σ cs
                      (min last (cs + size - 1))).2) (it + 1)
                    (assign_indexes_without_eth_transfer σ cs
                      (min last (cs + size - 1))).1 with hnil | ⟨t, ht⟩
                · rw [hnil] at hy
                  simp at hy
                · rw [ht] at hy
                  simp at hy
                  simp at hx
                  subst hx
                  subst hy
                  simp [sleepAfterBackfill]
    · rw [migrateLoop_exit dal last size si stop (fuel + 1) cs acc it σ hcs]
      exact List.chain'_nil

theorem range'_glue (s a b : Nat) (h : s ≤ a) :
    List.range' s (a - s) ++ List.range' a b = List.range' s (b + (a - s)) := by
  have key := List.range'_append_1 s (a - s) b
  rwa [show s + (a - s) = a from by omega] at key

theorem specWindows_flatten (last size : Nat) (hsize : 0 < size) :
    ∀ fuel start, last + 1 - start ≤ fuel →
      ((specWindows last size fuel start).flatMap
          fun w => List.range' w.1 (w.2 + 1 - w.1)) =
        List.range' start (last + 1 - start) := by
  intro fuel
  induction fuel with
  | zero =>
    intro start hfuel
    have h0 : last + 1 - start = 0 := by omega
    rw [h0]
    simp [specWindows]
  | succ fuel ih =>
    intro start hfuel
    by_cases hst : start ≤ last
    · have h1 : start ≤ min last (start + size - 1) := by omega
      have h2 : min last (start + size - 1) ≤ last := by omega
      rw [specWindows, if_pos hst, List.flatMap_cons]
      dsimp only
      rw [ih _ (by omega), range'_glue start (min last (start + size - 1) + 1)
        (last + 1 - (min last (start + size - 1) + 1)) (by omega)]
      congr 1
      omega
    · have h0 : last + 1 - start = 0 := by omega
      rw [specWindows, if_neg hst, h0]
      simp

/-! ## Byte-encoding lemmas for AccountTreeId -/

theorem beBytes_length : ∀ (k n : Nat), (beBytes k n).length = k := by
  intro k
  induction k with
  | zero => intro n; rfl
  | succ k ih => intro n; simp [beBytes, ih]

theorem beVal_append_singleton (l : List Nat) (b : Nat) :
    beVal (l ++ [b]) = beVal l * 256 + b := by
  simp [beVal, List.foldl_append]

theorem beVal_beBytes : ∀ (k n : Nat), beVal (beBytes k n) = n % 256 ^ k := by
  intro k
  induction k with
  | zero => intro n; simp [beBytes, beVal, Nat.mod_one]
  | succ k ih =>
    intro n
    show beVal (beBytes k (n / 256) ++ [n % 256]) = n % 256 ^ (k + 1)
    rw [beVal_append_singleton, ih, pow_succ, Nat.mul_comm (256 ^ k) 256, Nat.mod_mul]
    ring

theorem beBytes_succ (k n : Nat) :
    beBytes (k + 1) n = beBytes k (n / 256) ++ [n % 256] := rfl

theorem beBytes_split : ∀ (k j n : Nat),
    beBytes (j + k) n = beBytes j (n / 256 ^ k) ++ beBytes k n := by
  intro k
  induction k with
  | zero => intro j n; simp [beBytes]
  | succ k ih =>
    intro j n
    have e1 : j + (k + 1) = (j + k) + 1 := by omega
    rw [e1, beBytes_succ (j + k) n, ih j (n / 256), beBytes_succ k n,
      Nat.div_div_eq_div_mul, show 256 * 256 ^ k = 256 ^ (k + 1) from by ring,
      List.append_assoc]

theorem beVal_replicate_zero_append (k : Nat) (l : List Nat) :
    beVal (List.replicate k 0 ++ l) = beVal l := by
  induction k with
  | zero => rfl
  | succ k ih =>
    rw [List.replicate_succ, List.cons_append]
    show List.foldl (fun acc b => acc * 256 + b) (0 * 256 + 0) (List.replicate k 0 ++ l) =
      beVal l
    rw [show 0 * 256 + 0 = 0 from rfl]
    exact ih

theorem drop_of_length_eq {α : Type} {l₁ l₂ : List α} {n : Nat} (h : l₁.length = n) :
    (l₁ ++ l₂).drop n = l₂ := by
  subst h
  induction l₁ with
  | nil => rfl
  | cons a l₁ ih => simp

theorem intoU256_eq_address (a : AccountTreeId) (h : a.address < 2 ^ 160) :
    a.intoU256 = a.address := by
  unfold AccountTreeId.intoU256 AccountTreeId.to_fixed_bytes
  rw [beVal_replicate_zero_append, beVal_beBytes]
  exact Nat.mod_eq_of_lt (by norm_num at h ⊢; omega)

/-! ## Claim theorems -/

/-- C1: for every upper bound and chunk size above zero, if a fault-free,
uncancelled run of `migrate_miniblocks_inner` completes over a storage state
satisfying the collaborator contract, a second run with the same upper bound over
the resulting storage state completes with `events_affected = 0`. -/
theorem c1_second_run_zero (last size si : Nat) (σ σ' : EventStorage) (c : Nat)
    (hsize : 0 < size)
    (h1 : (migrate_miniblocks_inner okDal σ last size si noStop).2 =
      Except.ok (⟨c⟩, σ')) :
    (migrate_miniblocks_inner okDal σ' last size si noStop).2 =
      Except.ok (⟨0⟩, σ') := by
  unfold migrate_miniblocks_inner at h1 ⊢
  rw [if_pos hsize] at h1 ⊢
  obtain ⟨c₀, σ₀, hres, hacc, hmono, hcover, hpr⟩ :=
    migrateLoop_okDal_noStop last size si hsize (last + 1) 0 0 0 σ (by omega)
  rw [h1] at hres
  simp only [Except.ok.injEq, Prod.mk.injEq, MigrationOutput.mk.injEq] at hres
  obtain ⟨hc, hσ⟩ := hres
  rw [hσ]
  exact migrateLoop_all_migrated last size si hsize (last + 1) 0 0 0 σ₀ (by omega)
    fun n hn1 hn2 => hcover n (Nat.zero_le n) hn2

/-- C1 witness: over a two-block fixture a first run affects 14 rows and the
second run over the resulting storage affects 0. -/
theorem c1_witness :
    (0 : Nat) < 1 ∧
    (migrate_miniblocks_inner okDal sigmaUnmigrated 1 1 0 noStop).2 =
      Except.ok (⟨14⟩,
        (assign_indexes_without_eth_transfer
          (assign_indexes_without_eth_transfer sigmaUnmigrated 0 0).1 1 1).1) ∧
    (migrate_miniblocks_inner okDal
        (assign_indexes_without_eth_transfer
          (assign_indexes_without_eth_transfer sigmaUnmigrated 0 0).1 1 1).1
        1 1 0 noStop).2 =
      Except.ok (⟨0⟩,
        (assign_indexes_without_eth_transfer
          (assign_indexes_without_eth_transfer sigmaUnmigrated 0 0).1 1 1).1) :=
  ⟨Nat.one_pos, rfl,
    c1_second_run_zero 1 1 0 sigmaUnmigrated
      (assign_indexes_without_eth_transfer
        (assign_indexes_without_eth_transfer sigmaUnmigrated 0 0).1 1 1).1
      14 Nat.one_pos rfl⟩

/-- C2: an uninterrupted fault-free run completes with the accumulated outcome,
the ranges it probes are exactly the windows prescribed by the specification
(each window from `chunk_start` to `min upper_bound (chunk_start + chunk_size - 1)`,
the next starting at the window end plus one, while `chunk_start ≤ upper_bound`),
and those windows, concatenated in order, partition `[0, upper_bound]`. -/
theorem c2_windows_partition (last size si : Nat) (σ : EventStorage)
    (hsize : 0 < size) :
    (∃ c σ', (migrate_miniblocks_inner okDal σ last size si noStop).2 =
        Except.ok (⟨c⟩, σ')) ∧
    probeRanges (migrate_miniblocks_inner okDal σ last size si noStop).1 =
      specWindows last size (last + 1) 0 ∧
    ((specWindows last size (last + 1) 0).flatMap
        fun w => List.range' w.1 (w.2 + 1 - w.1)) = List.range (last + 1) := by
  unfold migrate_miniblocks_inner
  rw [if_pos hsize]
  obtain ⟨c, σ', hres, _, _, _, hpr⟩ :=
    migrateLoop_okDal_noStop last size si hsize (last + 1) 0 0 0 σ (by omega)
  refine ⟨⟨c, σ', hres⟩, hpr, ?_⟩
  rw [specWindows_flatten last size hsize (last + 1) 0 (by omega),
    List.range_eq_range']
  norm_num

/-- C2 witness: three blocks in chunks of two yield the windows from 0 to 1 and
from 2 to 2, which flatten to the full range. -/
theorem c2_witness :
    (∃ c σ', (migrate_miniblocks_inner okDal sigmaUnmigrated 2 2 0 noStop).2 =
        Except.ok (⟨c⟩, σ')) ∧
    probeRanges (migrate_miniblocks_inner okDal sigmaUnmigrated 2 2 0 noStop).1 =
      specWindows 2 2 3 0 ∧
    ((specWindows 2 2 3 0).flatMap fun w => List.range' w.1 (w.2 + 1 - w.1)) =
      List.range 3 :=
  c2_windows_partition 2 2 0 sigmaUnmigrated (by decide)

/-- C3: every storage call of any run of `migrate_miniblocks_inner`, under any
faults, storage state and cancellation signal, carries a non-empty inclusive
range inside the snapshot `[0, last_miniblock]`; blocks beyond the snapshot are
never queried or written. -/
theorem c3_ranges_within_snapshot (dal : DalFaults) (σ : EventStorage)
    (last size si : Nat) (stop : Nat → Bool) :
    ∀ c ∈ (migrate_miniblocks_inner dal σ last size si stop).1,
      withinSnapshot last c := by
  intro c hc
  unfold migrate_miniblocks_inner at hc
  by_cases hsize : 0 < size
  · rw [if_pos hsize] at hc
    exact migrateLoop_withinSnapshot dal last size si stop hsize (last + 1) 0 0 0 σ c hc
  · rw [if_neg hsize] at hc
    exact absurd hc (List.not_mem_nil c)

/-- C3 witness: the probe of the range from 0 to 0 in a concrete run stays
within the snapshot. -/
theorem c3_witness : withinSnapshot 1 (StorageCall.probe 0 0) :=
  c3_ranges_within_snapshot okDal sigmaUnmigrated 1 1 0 noStop
    (StorageCall.probe 0 0) (by decide)

/-- C4: when the cancellation signal is set before invocation and the chunk size
is positive, a fault-free run probes exactly one chunk, returns a successful
result (never an error) whose count reflects exactly that chunk's completed work,
and for an arbitrary signal a fault-free run still never returns an error. -/
theorem c4_cancellation_successful (last size si : Nat) (σ : EventStorage)
    (hsize : 0 < size) :
    probeRanges (migrate_miniblocks_inner okDal σ last size si alwaysStop).1 =
      [(0, min last (size - 1))] ∧
    (migrate_miniblocks_inner okDal σ last size si alwaysStop).2 =
      (if dalAreEventIndexesMigrated σ 0 (min last (size - 1)) then
        Except.ok (⟨0⟩, σ)
      else
        Except.ok
          (⟨(assign_indexes_without_eth_transfer σ 0 (min last (size - 1))).2⟩,
           (assign_indexes_without_eth_transfer σ 0 (min last (size - 1))).1)) ∧
    ∀ stop : Nat → Bool, ∃ c σ',
      (migrate_miniblocks_inner okDal σ last size si stop).2 =
        Except.ok (⟨c⟩, σ') := by
  unfold migrate_miniblocks_inner
  rw [if_pos hsize]
  have he0 : 0 + size - 1 = size - 1 := by omega
  have hz : (0 : Nat) ≤ last := Nat.zero_le last
  refine ⟨?_, ?_, ?_⟩
  · cases hmig : dalAreEventIndexesMigrated σ 0 (min last (size - 1)) with
    | true =>
      rw [migrateLoop_skip_stop okDal last size si alwaysStop last 0 0 0 σ hz rfl rfl
        (by rw [he0]; exact hmig) rfl]
      simp [probeRanges, he0]
    | false =>
      rw [migrateLoop_backfill_stop okDal last size si alwaysStop last 0 0 0 σ hz rfl rfl
        (by rw [he0]; exact hmig) rfl rfl]
      simp [probeRanges, he0]
  · cases hmig : dalAreEventIndexesMigrated σ 0 (min last (size - 1)) with
    | true =>
      rw [migrateLoop_skip_stop okDal last size si alwaysStop last 0 0 0 σ hz rfl rfl
        (by rw [he0]; exact hmig) rfl]
      simp
    | false =>
      rw [migrateLoop_backfill_stop okDal last size si alwaysStop last 0 0 0 σ hz rfl rfl
        (by rw [he0]; exact hmig) rfl rfl]
      rw [he0]
      simp
  · intro stop
    rw [if_pos hsize]
    exact migrateLoop_okDal_ok last size si stop hsize (last + 1) 0 0 0 σ (by omega)

/-- C4 witness: with the signal pre-set over four blocks in chunks of two,
exactly the window from 0 to 1 is processed and the run returns successfully. -/
theorem c4_witness :
    probeRanges (migrate_miniblocks_inner okDal sigmaUnmigrated 3 2 0 alwaysStop).1 =
      [(0, min 3 (2 - 1))] ∧
    (migrate_miniblocks_inner okDal sigmaUnmigrated 3 2 0 alwaysStop).2 =
      (if dalAreEventIndexesMigrated sigmaUnmigrated 0 (min 3 (2 - 1)) then
        Except.ok (⟨0⟩, sigmaUnmigrated)
      else
        Except.ok
          (⟨(assign_indexes_without_eth_transfer sigmaUnmigrated 0 (min 3 (2 - 1))).2⟩,
           (assign_indexes_without_eth_transfer sigmaUnmigrated 0 (min 3 (2 - 1))).1)) ∧
    ∀ stop : Nat → Bool, ∃ c σ',
      (migrate_miniblocks_inner okDal sigmaUnmigrated 3 2 0 stop).2 =
        Except.ok (⟨c⟩, σ') :=
  c4_cancellation_successful 3 2 0 sigmaUnmigrated (by decide)

/-- C5 counterexample: a failing connection acquisition aborts the run with an
error whose context list is empty — it mentions no window — contradicting the
claim that every storage failure, including connection acquisition, is annotated
with the window being processed. -/
theorem c5_counterexample :
    (migrate_miniblocks_inner connDownDal sigmaUnmigrated 4 1 0 noStop).2 =
      Except.error ⟨"pool down", []⟩ ∧
    (migrate_miniblocks_inner connDownDal sigmaUnmigrated 4 1 0 noStop).1 =
      [StorageCall.connect] :=
  ⟨rfl, rfl⟩

/-- C5 (amended): any storage failure aborts the run immediately with an error
and no count — the failing call is the last event of the trace — where probe and
backfill failures are annotated with the window being processed (a non-empty
inclusive sub-range of the snapshot) while connection-acquisition failures
propagate without a window annotation. -/
theorem c5_error_propagation_amended (dal : DalFaults) (σ : EventStorage)
    (last size si : Nat) (stop : Nat → Bool) (hsize : 0 < size) (e : AnyhowError)
    (he : (migrate_miniblocks_inner dal σ last size si stop).2 = Except.error e) :
    (e.contexts = [] ∧ (∃ i, dal.connectErr i = some e.base) ∧
      (migrate_miniblocks_inner dal σ last size si stop).1.getLast? =
        some StorageCall.connect) ∨
    (∃ lo hi, lo ≤ hi ∧ hi ≤ last ∧ dal.probeErr lo hi = some e.base ∧
      e.contexts = [probeContext lo hi] ∧
      (migrate_miniblocks_inner dal σ last size si stop).1.getLast? =
        some (StorageCall.probe lo hi)) ∨
    (∃ lo hi, lo ≤ hi ∧ hi ≤ last ∧ dal.backfillErr lo hi = some e.base ∧
      e.contexts = [backfillContext lo hi] ∧
      (migrate_miniblocks_inner dal σ last size si stop).1.getLast? =
        some (StorageCall.backfill lo hi)) := by
  unfold migrate_miniblocks_inner at he ⊢
  rw [if_pos hsize] at he ⊢
  exact migrateLoop_error_shape dal last size si stop hsize (last + 1) 0 0 0 σ
    (by omega) e he

/-- C5 witness: a probe failure at the window from 0 to 0 surfaces annotated
with exactly that window. -/
theorem c5_witness :
    ((AnyhowError.mk "db timeout" [probeContext 0 0]).contexts = [] ∧
      (∃ i, probeDownDal.connectErr i =
        some (AnyhowError.mk "db timeout" [probeContext 0 0]).base) ∧
      (migrate_miniblocks_inner probeDownDal sigmaUnmigrated 0 1 0 noStop).1.getLast? =
        some StorageCall.connect) ∨
    (∃ lo hi, lo ≤ hi ∧ hi ≤ 0 ∧ probeDownDal.probeErr lo hi =
        some (AnyhowError.mk "db timeout" [probeContext 0 0]).base ∧
      (AnyhowError.mk "db timeout" [probeContext 0 0]).contexts =
        [probeContext lo hi] ∧
      (migrate_miniblocks_inner probeDownDal sigmaUnmigrated 0 1 0 noStop).1.getLast? =
        some (StorageCall.probe lo hi)) ∨
    (∃ lo hi, lo ≤ hi ∧ hi ≤ 0 ∧ probeDownDal.backfillErr lo hi =
        some (AnyhowError.mk "db timeout" [probeContext 0 0]).base ∧
      (AnyhowError.mk "db timeout" [probeContext 0 0]).contexts =
        [backfillContext lo hi] ∧
      (migrate_miniblocks_inner probeDownDal sigmaUnmigrated 0 1 0 noStop).1.getLast? =
        some (StorageCall.backfill lo hi)) :=
  c5_error_propagation_amended probeDownDal sigmaUnmigrated 0 1 0 noStop (by decide)
    ⟨"db timeout", [probeContext 0 0]⟩ rfl

/-- C6: calling `migrate_miniblocks_inner` with chunk size 0 returns the
invalid-configuration error immediately, with an empty trace — no storage
operation (connection, probe or backfill) is ever invoked. -/
theorem c6_zero_chunk_size_rejected (dal : DalFaults) (σ : EventStorage)
    (last si : Nat) (stop : Nat → Bool) :
    migrate_miniblocks_inner dal σ last 0 si stop =
      ([], Except.error ⟨"Chunk size must be positive", []⟩) := rfl

/-- C7 counterexample: with the cancellation signal set before invocation, the
sole chunk's probe reports it not migrated and the backfill runs, yet the run
returns without any sleep — refuting the claimed iff between the sleep and a
not-migrated probe result on every iteration. -/
theorem c7_counterexample :
    dalAreEventIndexesMigrated sigmaUnmigrated 0 0 = false ∧
    (migrate_miniblocks_inner okDal sigmaUnmigrated 0 1 5 alwaysStop).1 =
      [StorageCall.connect, StorageCall.probe 0 0, StorageCall.backfill 0 0] ∧
    (migrate_miniblocks_inner okDal sigmaUnmigrated 0 1 5 alwaysStop).2 =
      Except.ok (⟨7⟩, (assign_indexes_without_eth_transfer sigmaUnmigrated 0 0).1) :=
  ⟨rfl, rfl, rfl⟩

/-- C7 (amended): in every run's trace, a sleep occurs exactly at the positions
immediately following a backfill: a chunk skipped as already migrated never
incurs the sleep (and is never backfilled, so no sleep can follow its probe),
and a backfilled chunk is followed by the sleep unless the run returns at that
iteration's cancellation check or the backfill failed. -/
theorem c7_sleep_iff_backfill_amended (dal : DalFaults) (σ : EventStorage)
    (last size si : Nat) (stop : Nat → Bool) :
    List.Chain' sleepAfterBackfill
      (migrate_miniblocks_inner dal σ last size si stop).1 := by
  unfold migrate_miniblocks_inner
  by_cases hsize : 0 < size
  · rw [if_pos hsize]
    exact migrateLoop_sleep_shape dal last size si stop (last + 1) 0 0 0 σ
  · rw [if_neg hsize]
    exact List.chain'_nil

/-- C8 counterexample: parsing the decimal string of `MAX + 1` terminates the
program via the `assert!` (the `panicked` outcome), which is not the recoverable
parse-error outcome returned to the caller — contradicting the claim that the
bound violation signals a recoverable `ValidationError`. -/
theorem c8_counterexample :
    L2ChainId.from_str "4503599627370478" = ChainIdParse.panicked ∧
    ChainIdParse.panicked ≠ ChainIdParse.err := by
  exact ⟨by decide, by decide⟩

/-- C8 (amended): parsing tries decimal first and falls back to hexadecimal, and
enforces the bound `value ≤ MAX` with `MAX = ((1 shl 53) - 1 - 36) / 2`: the
decimal string of `MAX` succeeds, the decimal string of `MAX + 1` makes the
`assert!` fail — terminating the program rather than returning a recoverable
error — and hexadecimal strings of the same numeric values behave identically to
their decimal forms. -/
theorem c8_parse_bound_amended :
    L2ChainId.from_str "4503599627370477" = ChainIdParse.ok ⟨L2ChainId_MAX⟩ ∧
    L2ChainId.from_str "4503599627370478" = ChainIdParse.panicked ∧
    L2ChainId.from_str "0xfffffffffffed" = ChainIdParse.ok ⟨L2ChainId_MAX⟩ ∧
    L2ChainId.from_str "0xfffffffffffee" = ChainIdParse.panicked ∧
    L2ChainId.from_str "10" = ChainIdParse.ok ⟨10⟩ ∧
    L2ChainId.from_str "0x10" = ChainIdParse.ok ⟨16⟩ ∧
    L2ChainId_MAX = ((2 ^ 53) - 1 - 36) / 2 := by
  refine ⟨?_, ?_, ?_, ?_, ?_, ?_, rfl⟩ <;> decide

/-- Helper: string parsing only ever constructs chain ids within the bound. -/
theorem from_str_ok_le (s : String) (c : L2ChainId)
    (h : L2ChainId.from_str s = ChainIdParse.ok c) : c.value ≤ L2ChainId_MAX := by
  unfold L2ChainId.from_str at h
  split at h
  next u heq =>
    split at h
    next hle => cases h; exact hle
    next hle => exact absurd h (by simp)
  next heq =>
    split at h
    next u heq2 =>
      split at h
      next hle => cases h; exact hle
      next hle => exact absurd h (by simp)
    next heq2 => exact absurd h (by simp)

/-- C9: `AccountTreeId::try_from` a 256-bit integer is total — it returns `Ok`
for every input, the error type being uninhabited — extracting the low 20 bytes
of the big-endian representation, and it is a left inverse of the conversion
into the 256-bit integer form (the 20-byte value zero-extended to 32 bytes). -/
theorem c9_try_from_total_left_inverse :
    (∀ v : Nat, ∃ a, AccountTreeId.try_from v = Except.ok a) ∧
    (∀ a : AccountTreeId, a.address < 2 ^ 160 →
      AccountTreeId.try_from a.intoU256 = Except.ok a) := by
  constructor
  · intro v
    exact ⟨_, rfl⟩
  · intro a h
    obtain ⟨addr⟩ := a
    have h160 : (256 : Nat) ^ 20 = 2 ^ 160 := by norm_num
    rw [intoU256_eq_address ⟨addr⟩ h]
    unfold AccountTreeId.try_from
    have hsplit : beBytes 32 addr = beBytes 12 (addr / 256 ^ 20) ++ beBytes 20 addr :=
      beBytes_split 20 12 addr
    have hdiv : addr / 256 ^ 20 = 0 := Nat.div_eq_of_lt (by rw [h160]; exact h)
    rw [hsplit, hdiv, drop_of_length_eq (beBytes_length 12 0)]
    unfold AccountTreeId.from_fixed_bytes
    rw [beVal_beBytes, Nat.mod_eq_of_lt (by rw [h160]; exact h)]

/-- C9 witness: the round trip at a concrete address value. -/
theorem c9_witness :
    (12345 : Nat) < 2 ^ 160 ∧
    AccountTreeId.try_from (AccountTreeId.intoU256 ⟨12345⟩) = Except.ok ⟨12345⟩ :=
  ⟨by norm_num, c9_try_from_total_left_inverse.2 ⟨12345⟩ (by norm_num)⟩

/-- C10: constructing an `L2ChainId` from a raw u64 performs no bound
validation — for every 64-bit value, including values above `MAX`, it succeeds
and wraps the value unchanged — so the bound `value ≤ MAX` enforced by string
parsing (which can never yield such a chain id) is not maintained by this
numeric constructor. -/
theorem c10_from_u64_unchecked (v : Nat) (_hv : v < 2 ^ 64) :
    (L2ChainId.from_u64 v).value = v ∧
    (L2ChainId_MAX < v →
      ∀ s, L2ChainId.from_str s ≠ ChainIdParse.ok (L2ChainId.from_u64 v)) := by
  refine ⟨rfl, fun hmax s hok => ?_⟩
  have hle : v ≤ L2ChainId_MAX := from_str_ok_le s _ hok
  exact Nat.lt_irrefl _ (Nat.lt_of_lt_of_le hmax hle)

/-- C10 witness: the constructor accepts `MAX + 1` unchanged, a value string
parsing can never produce. -/
theorem c10_witness :
    L2ChainId_MAX + 1 < 2 ^ 64 ∧
    (L2ChainId.from_u64 (L2ChainId_MAX + 1)).value = L2ChainId_MAX + 1 ∧
    (L2ChainId_MAX < L2ChainId_MAX + 1 →
      ∀ s, L2ChainId.from_str s ≠
        ChainIdParse.ok (L2ChainId.from_u64 (L2ChainId_MAX + 1))) :=
  ⟨by decide, (c10_from_u64_unchecked (L2ChainId_MAX + 1) (by decide)).1,
    (c10_from_u64_unchecked (L2ChainId_MAX + 1) (by decide)).2⟩
